import Mathlib

/-!
Verification development for the repo-serializer traversal and ignore engine
(src/index.js).  The JavaScript source is embedded shallowly: file contents are
lists of bytes, JavaScript strings that matter at the code-unit level are lists
of UTF-16 code units, byte counts are naturals, and the floating-point
replacement ratio is modelled as an exact rational.  Recursion over directory
trees is fuel-indexed so that every definition is structurally recursive and
kernel-computable; theorems carry a fuel bound expressed with sizeOf.
-/

/-- UTF-16 code unit of the Unicode replacement character U+FFFD, the sentinel
the serializer uses for undecodable bytes and disallowed control characters. -/
def replacementChar : Nat := 0xFFFD

/-- Whitespace recognised when modelling the JavaScript String.trim call used on
gitignore lines (ASCII whitespace; the full JS definition also covers exotic
Unicode spaces that cannot occur in the concrete inputs considered here). -/
def isJsSpace (c : Char) : Bool :=
  c = ' ' || c = '\t' || c = '\n' || c = '\r' || c = Char.ofNat 11 || c = Char.ofNat 12

/-- Model of String.trim from src/index.js line 194: drop whitespace from both
ends of a line. -/
def trimChars (l : List Char) : List Char :=
  ((l.dropWhile isJsSpace).reverse.dropWhile isJsSpace).reverse

/-- Split a character list at every occurrence of a separator character; models
the JavaScript split used on gitignore file contents and on slash-separated
paths.  Like JS split, it keeps empty fields, so a trailing separator yields a
trailing empty field. -/
def splitOnChar (sep : Char) : List Char → List (List Char)
  | [] => [[]]
  | c :: cs =>
    let r := splitOnChar sep cs
    if c = sep then [] :: r
    else
      match r with
      | [] => [[c]]
      | h :: t => (c :: h) :: t

/-- Model of the JavaScript String.startsWith check used by serializeRepo on
resolved output paths. -/
def strStartsWith (s p : String) : Bool := p.data.isPrefixOf s.data

/-- Fuel-indexed matcher for one glob segment of a gitignore pattern: literal
characters plus the * (any run, not crossing a slash because matching is done
per path segment) and ? (any single character) wildcards.  The fuel only serves
to make the definition structurally recursive; globMatch always supplies enough
of it. -/
def globAux : Nat → List Char → List Char → Bool
  | 0, _, _ => false
  | _ + 1, [], [] => true
  | f + 1, p :: ps, [] => p = '*' && globAux f ps []
  | _ + 1, [], _ :: _ => false
  | f + 1, p :: ps, c :: cs =>
    if p = '*' then globAux f ps (c :: cs) || globAux f (p :: ps) cs
    else if p = '?' then globAux f ps cs
    else p = c && globAux f ps cs

/-- Glob segment match with sufficient fuel: each recursive step of globAux
strictly shrinks the pattern or the text, so the product bound below dominates
the recursion depth. -/
def globMatch (ps cs : List Char) : Bool :=
  globAux ((ps.length + 1) * (cs.length + 1) + 1) ps cs

/-- Attempt to match a list of pattern segments against the front of a list of
path segments.  A pattern may stop early (a matched directory ignores its whole
subtree); a directory-only pattern that consumes the entire path additionally
requires the path to denote a directory. -/
def segsMatchFront : List String → List String → Bool → Bool → Bool
  | [], _, _, _ => true
  | [p], [s], isDirPath, dirOnly => globMatch p.data s.data && (!dirOnly || isDirPath)
  | [p], s :: _ :: _, _, _ => globMatch p.data s.data
  | _ :: _, [], _, _ => false
  | p :: ps, s :: ss, isDirPath, dirOnly =>
    globMatch p.data s.data && segsMatchFront ps ss isDirPath dirOnly

/-- All suffixes of a segment list, used for the at-any-level semantics of
gitignore patterns that contain no slash. -/
def tailsOf : List String → List (List String)
  | [] => [[]]
  | s :: ss => (s :: ss) :: tailsOf ss

/-- Modelled from the spec: the Pattern Matcher of section 4.1 is the external
gitignore-semantics engine (the npm ignore library, which is not part of src/)
wrapped unchanged by the serializer.  Per the gitignore rules that library
implements: a pattern ending in a slash only matches directories (the
serializer passes directory paths with a trailing slash); a pattern containing
a slash elsewhere, including a leading slash, is anchored at the root of the
path namespace in which paths are tested; a slash-free pattern matches at any
level; * and ? are per-segment wildcards; a matched directory also matches
everything below it.  Negation rules are not supported, matching the scope the
spec states. -/
def patternMatches (pat path : String) : Bool :=
  let pd := pat.data
  let isDirPath := path.data.getLast? == some '/'
  let rawSegs := splitOnChar '/' path.data
  let segs := (if isDirPath then rawSegs.dropLast else rawSegs).map String.mk
  let dirOnly := pd.getLast? == some '/'
  let core := if dirOnly then pd.dropLast else pd
  let leadSlash := core.head? == some '/'
  let core2 := if leadSlash then core.tail else core
  let anchored := leadSlash || core2.contains '/'
  let psegs := (splitOnChar '/' core2).map String.mk
  if anchored then segsMatchFront psegs segs isDirPath dirOnly
  else (tailsOf segs).any fun ss => segsMatchFront psegs ss isDirPath dirOnly

/-- Model of ig.ignores from the ignore library: with no negation rules in play,
a path is ignored exactly when some pattern matches it. -/
def ignores (patterns : List String) (path : String) : Bool :=
  patterns.any fun p => patternMatches p path

/-- A directory-tree entry as observed through fs.readdirSync with file types:
a file carries its raw byte content, a directory its child entries. -/
inductive FSEntry : Type where
  | file (name : String) (content : List Nat)
  | dir (name : String) (children : List FSEntry)

/-- Name of an entry, as returned by the directory listing. -/
def FSEntry.name : FSEntry → String
  | .file n _ => n
  | .dir n _ => n

/-- Model of entry.isDirectory(). -/
def FSEntry.isDir : FSEntry → Bool
  | .file _ _ => false
  | .dir _ _ => true

/-- Root-relative path of a child named n of the directory whose root-relative
path is relDir; models path.relative(repoRoot, path.join(dir, n)) with forward
slashes. -/
def childRelDir (relDir n : String) : String :=
  if relDir = "" then n else relDir ++ "/" ++ n

/-- Root-relative path of a directory entry as the generators build it
(src/index.js lines 259-263): files are bare, directories get a trailing
slash. -/
def entryRelPath (relDir : String) (e : FSEntry) : String :=
  childRelDir relDir e.name ++ (if e.isDir then "/" else "")

/-- Whether a byte is a UTF-8 continuation byte. -/
def contByte (b : Nat) : Bool := decide (0x80 ≤ b) && decide (b < 0xC0)

/-- Fuel-indexed UTF-8 decoding of a byte list into Unicode code points,
replacing malformed input with U+FFFD; models Buffer.toString with utf8
encoding (WHATWG-style replacement: an invalid lead or a truncated sequence
produces a replacement character and decoding resumes at the offending byte).
Every step consumes at least one byte, so fuel equal to the byte count
suffices; the fuel only makes the recursion structural. -/
def utf8DecodeAux : Nat → List Nat → List Nat
  | 0, _ => []
  | _ + 1, [] => []
  | f + 1, b0 :: rest =>
    if b0 < 0x80 then b0 :: utf8DecodeAux f rest
    else if b0 < 0xC2 then replacementChar :: utf8DecodeAux f rest
    else if b0 < 0xE0 then
      match rest with
      | [] => [replacementChar]
      | b1 :: rest1 =>
        if contByte b1 then ((b0 - 0xC0) * 64 + (b1 - 0x80)) :: utf8DecodeAux f rest1
        else replacementChar :: utf8DecodeAux f rest
    else if b0 < 0xF0 then
      match rest with
      | [] => [replacementChar]
      | b1 :: rest1 =>
        if contByte b1 && !(decide (b0 = 0xE0) && decide (b1 < 0xA0)) &&
            !(decide (b0 = 0xED) && decide (0xA0 ≤ b1)) then
          match rest1 with
          | [] => [replacementChar]
          | b2 :: rest2 =>
            if contByte b2 then
              ((b0 - 0xE0) * 4096 + (b1 - 0x80) * 64 + (b2 - 0x80)) :: utf8DecodeAux f rest2
            else replacementChar :: utf8DecodeAux f rest1
        else replacementChar :: utf8DecodeAux f rest
    else if b0 < 0xF5 then
      match rest with
      | [] => [replacementChar]
      | b1 :: rest1 =>
        if contByte b1 && !(decide (b0 = 0xF0) && decide (b1 < 0x90)) &&
            !(decide (b0 = 0xF4) && decide (0x90 ≤ b1)) then
          match rest1 with
          | [] => [replacementChar]
          | b2 :: rest2 =>
            if contByte b2 then
              match rest2 with
              | [] => [replacementChar]
              | b3 :: rest3 =>
                if contByte b3 then
                  ((b0 - 0xF0) * 262144 + (b1 - 0x80) * 4096 + (b2 - 0x80) * 64 + (b3 - 0x80))
                    :: utf8DecodeAux f rest3
                else replacementChar :: utf8DecodeAux f rest2
            else replacementChar :: utf8DecodeAux f rest1
        else replacementChar :: utf8DecodeAux f rest
    else replacementChar :: utf8DecodeAux f rest

/-- UTF-8 decoding with sufficient fuel. -/
def utf8DecodeCps (bytes : List Nat) : List Nat :=
  utf8DecodeAux (bytes.length + 1) bytes

/-- UTF-16 encoding of one code point (JavaScript strings are UTF-16). -/
def toUtf16 (cp : Nat) : List Nat :=
  if cp < 0x10000 then [cp]
  else [0xD800 + (cp - 0x10000) / 0x400, 0xDC00 + (cp - 0x10000) % 0x400]

/-- The JavaScript string obtained by UTF-8-decoding a byte list, as its list
of UTF-16 code units. -/
def utf8DecodeUnits (bytes : List Nat) : List Nat :=
  ((utf8DecodeCps bytes).map toUtf16).flatten

/-- The same decoding, packaged as a Lean string (used for gitignore files,
whose decoded code points are always valid scalar values). -/
def utf8DecodeString (bytes : List Nat) : String :=
  String.mk ((utf8DecodeCps bytes).map Char.ofNat)

/-- The UTF-16 code units of a Lean string. -/
def strToUnits (s : String) : List Nat :=
  (s.data.map fun c => toUtf16 c.toNat).flatten

/-- Model of readGitignorePatterns (src/index.js lines 189-198): read the
.gitignore file directly inside the directory, split it into lines, trim each
line, and keep the nonempty non-comment ones.  A directory listing with no
.gitignore file contributes no patterns; per the failure semantics of spec
section 4.2 an unreadable entry of that name is treated the same way. -/
def findGitignoreFile : List FSEntry → Option (List Nat)
  | [] => none
  | FSEntry.file n c :: rest => if n = ".gitignore" then some c else findGitignoreFile rest
  | FSEntry.dir _ _ :: rest => findGitignoreFile rest

/-- readGitignorePatterns proper: the pattern lines of the local .gitignore. -/
def readGitignorePatterns (entries : List FSEntry) : List String :=
  match findGitignoreFile entries with
  | none => []
  | some bytes =>
    ((splitOnChar '\n' (utf8DecodeString bytes).data).map fun l => String.mk (trimChars l)).filter
      fun l => !(l == "") && !(strStartsWith l "#")

/-- ALWAYS_IGNORE_PATTERNS from src/index.js lines 61-63. -/
def ALWAYS_IGNORE_PATTERNS : List String := [".git/"]

/-- DEFAULT_IGNORE_PATTERNS from src/index.js lines 66-70. -/
def DEFAULT_IGNORE_PATTERNS : List String := [".*", ".*/", "package-lock.json"]

/-- Model of createInitialIgnore (src/index.js lines 208-223); console logging
is outside the model. -/
def createInitialIgnore (additionalPatterns : List String) (ignoreDefaultPatterns : Bool) :
    List String :=
  ALWAYS_IGNORE_PATTERNS ++ (if ignoreDefaultPatterns then [] else DEFAULT_IGNORE_PATTERNS) ++
    additionalPatterns

/-- The pattern set both generators derive on entering a directory
(src/index.js lines 241-249 and 327-338): a fresh set holding the parent rules
followed by the local gitignore rules when gitignore processing is enabled. -/
def deriveIgnore (parentIg : List String) (entries : List FSEntry) (processGitignore : Bool) :
    List String :=
  parentIg ++ (if processGitignore then readGitignorePatterns entries else [])

/-- Model of replaceControlCharacters (src/index.js lines 293-295): the regex
replaces the code units U+0000 to U+0008 and U+000E to U+001F, leaving tab,
line feed, vertical tab, form feed and carriage return alone. -/
def replaceControlCharacters (text : List Nat) : List Nat :=
  text.map fun c => if c ≤ 8 ∨ (14 ≤ c ∧ c ≤ 31) then replacementChar else c

/-- Model of stripReplacementCharacters (src/index.js lines 302-304). -/
def stripReplacementCharacters (text : List Nat) : List Nat :=
  text.filter fun c => c ≠ replacementChar

/-- Number of replacement characters in a decoded text, as counted by the
global regex match in src/index.js line 145. -/
def replacementCount (text : List Nat) : Nat :=
  (text.filter fun c => c = replacementChar).length

/-- Model of hasHighReplacementCharacterRatio (src/index.js lines 138-147);
JavaScript number division is modelled with exact rationals. -/
def hasHighReplacementCharacterRatio (text : List Nat) (maxRatio : Rat) : Bool :=
  if maxRatio = 0 then decide (replacementChar ∈ text)
  else decide ((replacementCount text : Rat) / (text.length : Rat) > maxRatio)

/-- Model of isTextFile (src/index.js lines 157-181) on the file's byte
content: sample at most maxFileSize bytes from the start, treat an empty sample
as text, otherwise decode as UTF-8, replace disallowed control characters and
test the replacement-character ratio.  The IO failure path (read errors) is
outside the pure model. -/
def isTextFile (content : List Nat) (maxFileSize : Nat) (maxRatio : Rat) : Bool :=
  let sample := content.take maxFileSize
  if sample.length = 0 then true
  else ! hasHighReplacementCharacterRatio (replaceControlCharacters (utf8DecodeUnits sample))
      maxRatio

/-- Lexicographic comparison of names by code point; models the tie-free core
of the localeCompare-based comparators in the two sort callbacks.  The claims
verified here depend only on this being a total preorder, not on locale
details. -/
def lexLe : List Char → List Char → Bool
  | [], _ => true
  | _ :: _, [] => false
  | a :: as, b :: bs =>
    if a.toNat < b.toNat then true
    else if b.toNat < a.toNat then false
    else lexLe as bs

/-- Name comparison used by both generators. -/
def nameLe (a b : String) : Bool := lexLe a.data b.data

/-- The sort comparators of src/index.js lines 266-270 (structure, equal to the
non-hierarchical content order) and lines 342-349 (content): directories before
files unless hierarchical ordering is requested, names alphabetical within a
group. -/
def entryLe (hierarchical : Bool) (a b : FSEntry) : Bool :=
  if hierarchical then nameLe a.name b.name
  else if a.isDir && !b.isDir then true
  else if !a.isDir && b.isDir then false
  else nameLe a.name b.name

/-- Insert an entry into a sorted list, keeping earlier-inserted equal entries
behind it. -/
def insertSorted (le : FSEntry → FSEntry → Bool) (e : FSEntry) : List FSEntry → List FSEntry
  | [] => [e]
  | x :: xs => if le e x then e :: x :: xs else x :: insertSorted le e xs

/-- Model of Array.prototype.sort with a comparator: a stable sort with respect
to the comparator preorder (the claims depend only on the resulting order being
some stable, comparator-respecting permutation). -/
def sortEntries (le : FSEntry → FSEntry → Bool) : List FSEntry → List FSEntry
  | [] => []
  | x :: xs => insertSorted le x (sortEntries le xs)

/-- Pair each entry of a list with a flag telling whether it is the last one;
models the index === length - 1 test of the structure generator. -/
def withLastFlags : List FSEntry → List (FSEntry × Bool)
  | [] => []
  | e :: rest =>
    match rest with
    | [] => [(e, true)]
    | _ :: _ => (e, false) :: withLastFlags rest

/-- The filtered, sorted entry list the structure generator walks at one level
(src/index.js lines 257-270). -/
def validStructureEntries (entries : List FSEntry) (ig : List String) (relDir : String) :
    List FSEntry :=
  sortEntries (entryLe false) (entries.filter fun e => ! ignores ig (entryRelPath relDir e))

/-- Model of generateStructure (src/index.js lines 236-286).  The fuel makes
the recursion structural; any fuel exceeding sizeOf of the entry list yields
the JavaScript function's value.  Console logging is outside the model. -/
def generateStructure (fuel : Nat) (entries : List FSEntry) (parentIg : List String)
    (relDir pref dirName : String) (processGitignore : Bool) : String :=
  match fuel with
  | 0 => ""
  | f + 1 =>
    let ig := deriveIgnore parentIg entries processGitignore
    (if pref = "" then dirName ++ "/\n" else "") ++
    String.join ((withLastFlags (validStructureEntries entries ig relDir)).map fun el =>
      let line := pref ++ (if el.2 then "└── " else "├── ") ++ el.1.name ++
        (if el.1.isDir then "/" else "") ++ "\n"
      match el.1 with
      | .file _ _ => line
      | .dir n children =>
        line ++ generateStructure f children ig (childRelDir relDir n)
          (pref ++ (if el.2 then "    " else "│   ")) n processGitignore)

/-- Projection of generateStructure recording, for every file entry the
traversal lists, its root-relative path and its byte content.  It walks the
same filtered, sorted entries, derives the same pattern sets and prunes the
same subtrees as generateStructure; only the rendered tree art is dropped. -/
def structureFilePairs (fuel : Nat) (entries : List FSEntry) (parentIg : List String)
    (relDir : String) (pg : Bool) : List (String × List Nat) :=
  match fuel with
  | 0 => []
  | f + 1 =>
    let ig := deriveIgnore parentIg entries pg
    ((validStructureEntries entries ig relDir).map fun e =>
      match e with
      | .file n c => [(childRelDir relDir n, c)]
      | .dir n children => structureFilePairs f children ig (childRelDir relDir n) pg).flatten

/-- Whitespace code units removed by the String.trimStart call of the content
generator (ASCII subset; the characters that can actually lead its output are
the two newlines it inserts itself). -/
def isJsSpaceUnit (u : Nat) : Bool :=
  u == 9 || u == 10 || u == 11 || u == 12 || u == 13 || u == 32

/-- Model of String.trimStart. -/
def unitsTrimStart (l : List Nat) : List Nat := l.dropWhile isJsSpaceUnit

/-- FILE_SEPARATOR from src/index.js line 6. -/
def FILE_SEPARATOR : String := String.mk (List.replicate 60 '=')

/-- CONTENT_SEPARATOR from src/index.js line 9. -/
def CONTENT_SEPARATOR : String := String.mk (List.replicate 60 '-')

/-- Join a list of UTF-16 unit lists with newline separators; models
Array.prototype.join with a newline. -/
def joinWithNl : List (List Nat) → List Nat
  | [] => []
  | x :: xs =>
    match xs with
    | [] => x
    | _ :: _ => x ++ 10 :: joinWithNl xs

/-- Model of wrapWithSeparators (src/index.js lines 17-29). -/
def wrapWithSeparators (relativePath : String) (content : List Nat) : List Nat :=
  joinWithNl [strToUnits "", strToUnits "", strToUnits FILE_SEPARATOR,
    strToUnits ("START OF FILE: " ++ relativePath), strToUnits CONTENT_SEPARATOR, content,
    strToUnits CONTENT_SEPARATOR, strToUnits ("END OF FILE: " ++ relativePath),
    strToUnits FILE_SEPARATOR]

/-- The body the content generator embeds for a file (src/index.js lines
376-381): the full file content, UTF-8 decoded, with control characters
replaced and, unless keepReplacementChars is set, replacement characters
stripped. -/
def contentFileBody (keepReplacementChars : Bool) (content : List Nat) : List Nat :=
  if keepReplacementChars then replaceControlCharacters (utf8DecodeUnits content)
  else stripReplacementCharacters (replaceControlCharacters (utf8DecodeUnits content))

/-- Model of generateContentFile (src/index.js lines 322-388).  The fuel makes
the recursion structural; console logging (verbose traces and the skip notices
controlled by silent) is outside the model. -/
def generateContentFile (fuel : Nat) (entries : List FSEntry) (parentIg : List String)
    (relDir : String) (maxFileSize : Nat) (pg hierarchical : Bool) (maxRatio : Rat)
    (keepReplacementChars : Bool) : List Nat :=
  match fuel with
  | 0 => []
  | f + 1 =>
    let ig := deriveIgnore parentIg entries pg
    unitsTrimStart (((sortEntries (entryLe hierarchical) entries).map fun e =>
      let rel := entryRelPath relDir e
      if ignores ig rel then []
      else
        match e with
        | .dir n children =>
          strToUnits "\n\n" ++ generateContentFile f children ig (childRelDir relDir n)
            maxFileSize pg hierarchical maxRatio keepReplacementChars
        | .file _ c =>
          if isTextFile c maxFileSize maxRatio then
            wrapWithSeparators rel (contentFileBody keepReplacementChars c)
          else []).flatten)

/-- Projection of generateContentFile recording, for every file block it emits,
the block's root-relative path and body.  It walks the same sorted entries,
skips the same ignored paths, applies the same text classification and prunes
the same subtrees; only the separator art, the blank-line padding and the final
trimStart are dropped, none of which add or remove blocks. -/
def contentBlocks (fuel : Nat) (entries : List FSEntry) (parentIg : List String)
    (relDir : String) (maxFileSize : Nat) (pg hierarchical : Bool) (maxRatio : Rat)
    (keepReplacementChars : Bool) : List (String × List Nat) :=
  match fuel with
  | 0 => []
  | f + 1 =>
    let ig := deriveIgnore parentIg entries pg
    ((sortEntries (entryLe hierarchical) entries).map fun e =>
      if ignores ig (entryRelPath relDir e) then []
      else
        match e with
        | .dir n children =>
          contentBlocks f children ig (childRelDir relDir n) maxFileSize pg hierarchical
            maxRatio keepReplacementChars
        | .file n c =>
          if isTextFile c maxFileSize maxRatio then
            [(childRelDir relDir n, contentFileBody keepReplacementChars c)]
          else []).flatten

/-- The string contribution of one (entry, is-last) pair at one level of
generateStructure; the generator at positive fuel is the root line followed by
the join of these contributions over its filtered, sorted entries. -/
def structEmitEntry (f : Nat) (ig : List String) (relDir pref : String) (pg : Bool)
    (el : FSEntry × Bool) : String :=
  let line := pref ++ (if el.2 then "└── " else "├── ") ++ el.1.name ++
    (if el.1.isDir then "/" else "") ++ "\n"
  match el.1 with
  | .file _ _ => line
  | .dir n children =>
    line ++ generateStructure f children ig (childRelDir relDir n)
      (pref ++ (if el.2 then "    " else "│   ")) n pg

/-- The code-unit contribution of one entry at one level of
generateContentFile. -/
def contentEmitEntry (f : Nat) (ig : List String) (relDir : String) (maxFileSize : Nat)
    (pg hierarchical : Bool) (maxRatio : Rat) (keepReplacementChars : Bool) (e : FSEntry) :
    List Nat :=
  let rel := entryRelPath relDir e
  if ignores ig rel then []
  else
    match e with
    | .dir n children =>
      strToUnits "\n\n" ++ generateContentFile f children ig (childRelDir relDir n)
        maxFileSize pg hierarchical maxRatio keepReplacementChars
    | .file _ c =>
      if isTextFile c maxFileSize maxRatio then
        wrapWithSeparators rel (contentFileBody keepReplacementChars c)
      else []

/-- The configuration record of serializeRepo after its destructuring defaults
(src/index.js lines 408-424). -/
structure SerializeOptions where
  repoRoot : String
  outputDir : String
  structureFile : String
  contentFile : String
  additionalIgnorePatterns : List String
  force : Bool
  isCliCall : Bool
  maxFileSize : Nat
  ignoreDefaultPatterns : Bool
  noGitignore : Bool
  silent : Bool
  verbose : Bool
  hierarchicalContent : Bool
  maxReplacementRatio : Rat
  keepReplacementChars : Bool
deriving DecidableEq

/-- The exceptions serializeRepo can raise before generating output. -/
inductive SerializeError : Type where
  | invalidMaxFileSize
  | verboseSilentConflict
  | invalidMaxReplacementRatio
  | promptRequired
  | outputFilesExist
deriving DecidableEq

/-- The observable outcome of a successful run: the final state of the
caller-supplied ignore-pattern array (the code mutates it in place) and the two
written output files. -/
structure SerializeResult where
  ignorePatterns : List String
  structureOut : String
  contentOut : List Nat
deriving DecidableEq

/-- Model of path.join for an absolute normalized directory and a file name. -/
def pathJoin (dir f : String) : String := dir ++ "/" ++ f

/-- Model of path.resolve; on paths that are already absolute and normalized it
is the identity, and the model works with such paths throughout. -/
def resolvePath (p : String) : String := p

/-- Strip the common leading segments of two segment lists. -/
def dropCommonSegs : List (List Char) → List (List Char) → List (List Char) × List (List Char)
  | a :: as, b :: bs => if a = b then dropCommonSegs as bs else (a :: as, b :: bs)
  | as, bs => (as, bs)

/-- Join character-list segments with slashes. -/
def joinSegsWithSlash : List (List Char) → List Char
  | [] => []
  | s :: ss =>
    match ss with
    | [] => s
    | _ :: _ => s ++ '/' :: joinSegsWithSlash ss

/-- Model of Node path.relative for absolute normalized POSIX paths: drop the
common leading segments, then climb out of what remains of the source path
with dot-dot segments. -/
def pathRelative (fromP toP : String) : String :=
  let p := dropCommonSegs (splitOnChar '/' fromP.data) (splitOnChar '/' toP.data)
  String.mk (joinSegsWithSlash (List.replicate p.1.length ['.', '.'] ++ p.2))

/-- Model of path.basename for an absolute normalized path. -/
def pathBasename (p : String) : String :=
  match (splitOnChar '/' p.data).getLast? with
  | none => ""
  | some s => String.mk s

/-- The successful tail of serializeRepo (src/index.js lines 468-482): build
the initial pattern set and run the two generators; the two writeFileSync calls
are modelled by returning the generated outputs. -/
def runSerialization (o : SerializeOptions) (patterns : List String)
    (rootEntries : List FSEntry) (fuel : Nat) : Except SerializeError SerializeResult :=
  let ig := createInitialIgnore patterns o.ignoreDefaultPatterns
  .ok {
    ignorePatterns := patterns,
    structureOut := generateStructure fuel rootEntries ig "" "" (pathBasename o.repoRoot)
      (!o.noGitignore),
    contentOut := generateContentFile fuel rootEntries ig "" o.maxFileSize (!o.noGitignore)
      o.hierarchicalContent o.maxReplacementRatio o.keepReplacementChars }

/-- Model of serializeRepo (src/index.js lines 407-482).  Validation and
collision handling follow the source order; a thrown Error is an error result,
and in that case no output is produced and the caller's pattern array is left
alone.  The results of the two fs.existsSync probes on the output paths are
inputs of the model. -/
def serializeRepo (o : SerializeOptions) (rootEntries : List FSEntry)
    (structureFileExists contentFileExists : Bool) (fuel : Nat) :
    Except SerializeError SerializeResult :=
  if o.maxFileSize < 512 ∨ 4 * 1024 * 1024 < o.maxFileSize then .error .invalidMaxFileSize
  else if o.verbose ∧ o.silent then .error .verboseSilentConflict
  else if o.maxReplacementRatio < 0 ∨ 1 < o.maxReplacementRatio then
    .error .invalidMaxReplacementRatio
  else
    let structurePath := pathJoin o.outputDir o.structureFile
    let contentPath := pathJoin o.outputDir o.contentFile
    if structureFileExists || contentFileExists then
      if o.force then
        let ps1 :=
          if structureFileExists &&
              strStartsWith (resolvePath structurePath) (resolvePath o.repoRoot) then
            o.additionalIgnorePatterns ++ ["/" ++ pathRelative o.repoRoot structurePath]
          else o.additionalIgnorePatterns
        let ps2 :=
          if contentFileExists &&
              strStartsWith (resolvePath contentPath) (resolvePath o.repoRoot) then
            ps1 ++ ["/" ++ pathRelative o.repoRoot contentPath]
          else ps1
        runSerialization o ps2 rootEntries fuel
      else if o.isCliCall then .error .promptRequired
      else .error .outputFilesExist
    else runSerialization o o.additionalIgnorePatterns rootEntries fuel

/-- The Unicode control characters (general category Cc): U+0000 through U+001F
together with U+007F through U+009F.  This is the claim-side reading of the
phrase control character. -/
def isUnicodeControl (c : Nat) : Bool :=
  decide (c < 0x20) || (decide (0x7F ≤ c) && decide (c ≤ 0x9F))

/-- The allow-list named by the claim and the spec: tab, line feed, vertical
tab, form feed, carriage return. -/
def controlAllowList : List Nat := [9, 10, 11, 12, 13]

/-- Segment-wise plainness of a relative path: nonempty, not slash-delimited at
either end, and free of glob metacharacters in every segment. -/
def relSegsPlain (s : String) : Bool :=
  !(s.data = []) && !(s.data.head? == some '/') && !(s.data.getLast? == some '/') &&
    (splitOnChar '/' s.data).all fun seg => seg.all fun c => !(c = '*') && !(c = '?')

/-- A configuration with an out-of-range maxFileSize, used as concrete input
for the C9 witness. -/
def c9Opts : SerializeOptions where
  repoRoot := "/r"
  outputDir := "/o"
  structureFile := "s.txt"
  contentFile := "c.txt"
  additionalIgnorePatterns := []
  force := false
  isCliCall := false
  maxFileSize := 100
  ignoreDefaultPatterns := false
  noGitignore := false
  silent := false
  verbose := false
  hierarchicalContent := false
  maxReplacementRatio := 0
  keepReplacementChars := false

/-- A configuration whose maxFileSize is invalid while an output file exists,
force is off and the call is interactive; concrete input of the C8
counterexample. -/
def c8BadOpts : SerializeOptions where
  repoRoot := "/repo"
  outputDir := "/out"
  structureFile := "s.txt"
  contentFile := "c.txt"
  additionalIgnorePatterns := []
  force := false
  isCliCall := true
  maxFileSize := 0
  ignoreDefaultPatterns := false
  noGitignore := false
  silent := false
  verbose := false
  hierarchicalContent := false
  maxReplacementRatio := 0
  keepReplacementChars := false

/-- A valid interactive configuration used as concrete input of the C8
witness. -/
def c8GoodOpts : SerializeOptions where
  repoRoot := "/repo"
  outputDir := "/out"
  structureFile := "s.txt"
  contentFile := "c.txt"
  additionalIgnorePatterns := []
  force := false
  isCliCall := true
  maxFileSize := 8192
  ignoreDefaultPatterns := false
  noGitignore := false
  silent := false
  verbose := false
  hierarchicalContent := false
  maxReplacementRatio := 0
  keepReplacementChars := false

/-- The claim-side reading of an output path lying within the repository root:
the resolved root, extended by a path separator, is a prefix of the resolved
output path. -/
def pathWithin (root p : String) : Bool := strStartsWith p (root ++ "/")

/-- A force-mode configuration whose output directory is a sibling of the
repository root with the root as a proper string prefix; concrete input of the
C10 counterexample. -/
def c10Opts : SerializeOptions where
  repoRoot := "/repo"
  outputDir := "/repo2"
  structureFile := "s.txt"
  contentFile := "c.txt"
  additionalIgnorePatterns := []
  force := true
  isCliCall := false
  maxFileSize := 8192
  ignoreDefaultPatterns := false
  noGitignore := false
  silent := false
  verbose := false
  hierarchicalContent := false
  maxReplacementRatio := 0
  keepReplacementChars := false

/-- A force-mode configuration whose outputs are inside the repository root;
concrete input of the C10 witness. -/
def c10WitOpts : SerializeOptions where
  repoRoot := "/repo"
  outputDir := "/repo"
  structureFile := "repo_structure.txt"
  contentFile := "repo_content.txt"
  additionalIgnorePatterns := []
  force := true
  isCliCall := false
  maxFileSize := 8192
  ignoreDefaultPatterns := false
  noGitignore := false
  silent := false
  verbose := false
  hierarchicalContent := false
  maxReplacementRatio := 0
  keepReplacementChars := false

/-- The C1 failing input: a repository with a/b/.gitignore containing the
anchored pattern slash-dot-env (bytes of the text line), files a/b/.env,
a/b/c/.env and a top-level .env (each one byte of ASCII text), with default
ignore patterns disabled so the hidden-file rules do not mask the gitignore
behaviour. -/
def c1Tree : List FSEntry :=
  [FSEntry.dir "a" [FSEntry.dir "b"
      [FSEntry.file ".gitignore" [47, 46, 101, 110, 118, 10],
        FSEntry.file ".env" [88],
        FSEntry.dir "c" [FSEntry.file ".env" [88]]]],
    FSEntry.file ".env" [88]]

theorem mem_insertSorted {le : FSEntry → FSEntry → Bool} {e a : FSEntry} :
    ∀ {l : List FSEntry}, a ∈ insertSorted le e l ↔ a = e ∨ a ∈ l := by
  intro l
  induction l with
  | nil => simp [insertSorted]
  | cons x xs ih =>
    simp only [insertSorted]
    split
    · simp [List.mem_cons]
    · simp only [List.mem_cons, ih]
      tauto

theorem mem_sortEntries {le : FSEntry → FSEntry → Bool} {a : FSEntry} :
    ∀ {l : List FSEntry}, a ∈ sortEntries le l ↔ a ∈ l := by
  intro l
  induction l with
  | nil => simp [sortEntries]
  | cons x xs ih =>
    simp only [sortEntries, mem_insertSorted, ih, List.mem_cons]

theorem one_le_replacementCount_iff (text : List Nat) :
    1 ≤ replacementCount text ↔ replacementChar ∈ text := by
  induction text with
  | nil => simp [replacementCount]
  | cons u us ih =>
    by_cases hu : u = replacementChar
    · subst hu
      have hcount : replacementCount (replacementChar :: us) = replacementCount us + 1 := by
        simp [replacementCount, List.filter_cons]
      constructor
      · intro _
        exact List.mem_cons_self _ _
      · intro _
        omega
    · have hcount : replacementCount (u :: us) = replacementCount us := by
        simp [replacementCount, List.filter_cons, hu]
      rw [hcount, ih, List.mem_cons]
      constructor
      · exact Or.inr
      · rintro (h | h)
        · exact absurd h.symm hu
        · exact h

/-- C3: for a decoded sample with exactly k replacement characters among n code
units, hasHighReplacementCharacterRatio accepts (returns false) iff k/n does
not exceed maxReplacementRatio when that ratio is positive — equality at the
threshold is accepted — and when the ratio is zero it rejects exactly when at
least one replacement character occurs. -/
theorem c3_ratio_boundary (text : List Nat) (maxRatio : Rat) (k n : Nat)
    (hk : k = replacementCount text) (hn : n = text.length) :
    (0 < maxRatio →
      (hasHighReplacementCharacterRatio text maxRatio = false ↔
        (k : Rat) / (n : Rat) ≤ maxRatio)) ∧
    (maxRatio = 0 →
      (hasHighReplacementCharacterRatio text maxRatio = true ↔ 1 ≤ k)) := by
  subst hk
  subst hn
  constructor
  · intro hr
    have hne : maxRatio ≠ 0 := ne_of_gt hr
    simp [hasHighReplacementCharacterRatio, hne, not_lt]
  · intro hr
    subst hr
    unfold hasHighReplacementCharacterRatio
    rw [if_pos rfl, decide_eq_true_eq]
    exact (one_le_replacementCount_iff text).symm

theorem c3_witness :
    ((1 : Nat) = replacementCount [replacementChar, 65] ∧
      (2 : Nat) = [replacementChar, 65].length) ∧
    (hasHighReplacementCharacterRatio [replacementChar, 65] (1 / 2) = false ↔
      ((1 : Nat) : Rat) / ((2 : Nat) : Rat) ≤ (1 / 2 : Rat)) := by
  refine ⟨⟨by decide, by decide⟩, ?_⟩
  exact (c3_ratio_boundary [replacementChar, 65] (1 / 2) 1 2 (by decide) (by decide)).1
    (by norm_num)

/-- C4 counterexample: DEL (U+007F) is a control character outside the
allow-list, yet replaceControlCharacters leaves it unchanged instead of mapping
it to the replacement character, contradicting the claim as stated. -/
theorem c4_counterexample :
    isUnicodeControl 127 = true ∧ (127 : Nat) ∉ controlAllowList ∧
    replaceControlCharacters [127] = [127] ∧
    replaceControlCharacters [127] ≠ [replacementChar] := by
  refine ⟨by decide, by decide, by decide, by decide⟩

/-- C4 as amended: replaceControlCharacters preserves length and, pointwise,
maps exactly the C0 control characters (below U+0020) outside the allow-list to
the replacement character, leaving every other code unit — the allow-listed
ones, printable characters, DEL and the C1 range included — unchanged. -/
theorem c4_control_characters (text : List Nat) :
    (replaceControlCharacters text).length = text.length ∧
    ∀ p ∈ text.zip (replaceControlCharacters text),
      (p.1 < 32 ∧ p.1 ∉ controlAllowList → p.2 = replacementChar) ∧
      (¬(p.1 < 32 ∧ p.1 ∉ controlAllowList) → p.2 = p.1) := by
  constructor
  · simp [replaceControlCharacters]
  · induction text with
    | nil => simp
    | cons u us ih =>
      intro p hp
      simp only [replaceControlCharacters, List.map_cons, List.zip_cons_cons,
        List.mem_cons] at hp
      rcases hp with hp | hp
      · subst hp
        constructor
        · intro h
          have hc : u ≤ 8 ∨ 14 ≤ u ∧ u ≤ 31 := by
            rcases h with ⟨h1, h2⟩
            simp only [controlAllowList, List.mem_cons, List.not_mem_nil, or_false] at h2
            omega
          simp only [if_pos hc]
        · intro h
          have hc : ¬(u ≤ 8 ∨ 14 ≤ u ∧ u ≤ 31) := by
            intro hc
            apply h
            refine ⟨by omega, ?_⟩
            simp only [controlAllowList, List.mem_cons, List.not_mem_nil, or_false]
            omega
          simp only [if_neg hc]
      · exact ih p hp

theorem c4_witness :
    ((0 : Nat) < 32 ∧ (0 : Nat) ∉ controlAllowList →
      (replacementChar : Nat) = replacementChar) ∧
    (¬((127 : Nat) < 32 ∧ (127 : Nat) ∉ controlAllowList) → (127 : Nat) = 127) := by
  refine ⟨?_, ?_⟩
  · exact ((c4_control_characters [0, 127]).2 (0, replacementChar) (by decide)).1
  · exact ((c4_control_characters [0, 127]).2 (127, 127) (by decide)).2

/-- C5: text classification looks only at the first maxFileSize bytes (files
with the same sampled prefix classify alike); a file whose sample classifies as
text gets a content block whose body is built from the entire file content, not
the sample; and a zero-byte file always classifies as text. -/
theorem c5_size_cap (fuel : Nat) (c1 c2 : List Nat) (m : Nat) (r : Rat)
    (pre post : List FSEntry) (n : String) (c : List Nat) (parentIg : List String)
    (relDir : String) (pg hier keep : Bool)
    (hsample : c1.take m = c2.take m)
    (hnotig : ignores (deriveIgnore parentIg (pre ++ FSEntry.file n c :: post) pg)
      (entryRelPath relDir (FSEntry.file n c)) = false)
    (htext : isTextFile c m r = true) :
    isTextFile c1 m r = isTextFile c2 m r ∧
    (childRelDir relDir n, contentFileBody keep c)
      ∈ contentBlocks (fuel + 1) (pre ++ FSEntry.file n c :: post) parentIg relDir m pg hier
        r keep ∧
    isTextFile [] m r = true := by
  refine ⟨?_, ?_, ?_⟩
  · unfold isTextFile
    rw [hsample]
  · simp only [contentBlocks]
    rw [List.mem_flatten]
    refine ⟨_, List.mem_map.mpr ⟨FSEntry.file n c, mem_sortEntries.mpr ?_, rfl⟩, ?_⟩
    · exact List.mem_append.mpr (Or.inr (List.mem_cons_self _ _))
    · simp only [hnotig, Bool.false_eq_true, if_false, htext, if_true]
      exact List.mem_singleton.mpr rfl
  · unfold isTextFile
    simp

theorem c5_witness :
    isTextFile [65, 0] 1 0 = isTextFile [65, 1] 1 0 ∧
    ("a.txt", contentFileBody false [66])
      ∈ contentBlocks 2 [FSEntry.file "a.txt" [66]] [] "" 1 true false 0 false ∧
    isTextFile [] 1 0 = true :=
  c5_size_cap 1 [65, 0] [65, 1] 1 0 [] [] "a.txt" [66] [] "" true false false
    (by decide) (by decide) (by decide)

theorem findGitignoreFile_append_dir (l1 l2 : List FSEntry) (n : String) (cs : List FSEntry) :
    findGitignoreFile (l1 ++ FSEntry.dir n cs :: l2) = findGitignoreFile (l1 ++ l2) := by
  induction l1 with
  | nil => simp [findGitignoreFile]
  | cons e es ih =>
    cases e with
    | file nm c => simp [findGitignoreFile, ih]
    | dir nm cs2 => simp [findGitignoreFile, ih]

theorem deriveIgnore_append_dir (parentIg : List String) (l1 l2 : List FSEntry) (n : String)
    (cs : List FSEntry) (pg : Bool) :
    deriveIgnore parentIg (l1 ++ FSEntry.dir n cs :: l2) pg =
      deriveIgnore parentIg (l1 ++ l2) pg := by
  unfold deriveIgnore readGitignorePatterns
  rw [findGitignoreFile_append_dir]

theorem lexLe_cons_iff (x y : Char) (xs ys : List Char) :
    lexLe (x :: xs) (y :: ys) = true ↔
      x.toNat < y.toNat ∨ (x.toNat = y.toNat ∧ lexLe xs ys = true) := by
  simp only [lexLe]
  by_cases h1 : x.toNat < y.toNat
  · simp [h1]
  · by_cases h2 : y.toNat < x.toNat
    · simp only [if_neg h1, if_pos h2]
      constructor
      · intro h; exact absurd h (by simp)
      · rintro (h | ⟨h, _⟩) <;> omega
    · have hxy : x.toNat = y.toNat := by omega
      simp [h1, h2, hxy]

theorem lexLe_total : ∀ a b : List Char, lexLe a b = false → lexLe b a = true := by
  intro a
  induction a with
  | nil => intro b h; simp [lexLe] at h
  | cons x xs ih =>
    intro b h
    cases b with
    | nil => simp [lexLe]
    | cons y ys =>
      have h2 : ¬(x.toNat < y.toNat ∨ (x.toNat = y.toNat ∧ lexLe xs ys = true)) := by
        rw [← lexLe_cons_iff, h]
        simp
      push_neg at h2
      rw [lexLe_cons_iff]
      by_cases hyx : y.toNat < x.toNat
      · exact Or.inl hyx
      · have heq : x.toNat = y.toNat := by
          have := h2.1
          omega
        refine Or.inr ⟨heq.symm, ?_⟩
        exact ih ys (Bool.eq_false_iff.mpr (h2.2 heq))

theorem lexLe_trans : ∀ a b c : List Char, lexLe a b = true → lexLe b c = true →
    lexLe a c = true := by
  intro a
  induction a with
  | nil => intro b c _ _; simp [lexLe]
  | cons x xs ih =>
    intro b c h1 h2
    cases b with
    | nil => simp [lexLe] at h1
    | cons y ys =>
      cases c with
      | nil => simp [lexLe] at h2
      | cons z zs =>
        rw [lexLe_cons_iff] at h1 h2 ⊢
        rcases h1 with h1 | ⟨h1e, h1r⟩
        · rcases h2 with h2 | ⟨h2e, _⟩
          · exact Or.inl (by omega)
          · exact Or.inl (by omega)
        · rcases h2 with h2 | ⟨h2e, h2r⟩
          · exact Or.inl (by omega)
          · exact Or.inr ⟨by omega, ih ys zs h1r h2r⟩

theorem nameLe_total (a b : String) (h : nameLe a b = false) : nameLe b a = true :=
  lexLe_total a.data b.data h

theorem nameLe_trans (a b c : String) (h1 : nameLe a b = true) (h2 : nameLe b c = true) :
    nameLe a c = true :=
  lexLe_trans a.data b.data c.data h1 h2

theorem entryLe_total (h : Bool) : ∀ a b : FSEntry, entryLe h a b = false →
    entryLe h b a = true := by
  intro a b hab
  unfold entryLe at *
  cases h <;> cases ha : a.isDir <;> cases hb : b.isDir <;> simp_all <;>
    exact nameLe_total _ _ hab

theorem entryLe_trans (h : Bool) : ∀ a b c : FSEntry, entryLe h a b = true →
    entryLe h b c = true → entryLe h a c = true := by
  intro a b c hab hbc
  unfold entryLe at *
  cases h <;> cases ha : a.isDir <;> cases hb : b.isDir <;> cases hc : c.isDir <;> simp_all <;>
    exact nameLe_trans _ _ _ hab hbc

theorem pairwise_insertSorted (le : FSEntry → FSEntry → Bool)
    (htot : ∀ a b, le a b = false → le b a = true)
    (htrans : ∀ a b c, le a b = true → le b c = true → le a c = true)
    (e : FSEntry) :
    ∀ l : List FSEntry, l.Pairwise (fun a b => le a b = true) →
      (insertSorted le e l).Pairwise (fun a b => le a b = true) := by
  intro l
  induction l with
  | nil =>
    intro _
    simp [insertSorted]
  | cons x xs ih =>
    intro h
    rw [List.pairwise_cons] at h
    simp only [insertSorted]
    split
    · rename_i hle
      rw [List.pairwise_cons]
      refine ⟨?_, List.pairwise_cons.mpr h⟩
      intro b hb
      rcases List.mem_cons.mp hb with hb | hb
      · rw [hb]; exact hle
      · exact htrans e x b hle (h.1 b hb)
    · rename_i hle
      rw [List.pairwise_cons]
      refine ⟨?_, ih h.2⟩
      intro b hb
      rcases mem_insertSorted.mp hb with hb | hb
      · rw [hb]
        exact htot e x (Bool.eq_false_iff.mpr hle)
      · exact h.1 b hb

theorem pairwise_sortEntries (le : FSEntry → FSEntry → Bool)
    (htot : ∀ a b, le a b = false → le b a = true)
    (htrans : ∀ a b c, le a b = true → le b c = true → le a c = true) :
    ∀ l : List FSEntry, (sortEntries le l).Pairwise (fun a b => le a b = true) := by
  intro l
  induction l with
  | nil => simp [sortEntries]
  | cons x xs ih => exact pairwise_insertSorted le htot htrans x _ ih

theorem insertSorted_split (le : FSEntry → FSEntry → Bool) (e : FSEntry) :
    ∀ l : List FSEntry, ∃ A B, insertSorted le e l = A ++ e :: B ∧ l = A ++ B := by
  intro l
  induction l with
  | nil => exact ⟨[], [], rfl, rfl⟩
  | cons x xs ih =>
    simp only [insertSorted]
    split
    · exact ⟨[], x :: xs, rfl, rfl⟩
    · obtain ⟨A, B, h1, h2⟩ := ih
      exact ⟨x :: A, B, by rw [List.cons_append, h1], by rw [List.cons_append, ← h2]⟩

theorem insertSorted_middle (le : FSEntry → FSEntry → Bool)
    (htrans : ∀ a b c, le a b = true → le b c = true → le a c = true) (x d : FSEntry) :
    ∀ (A B : List FSEntry), (A ++ d :: B).Pairwise (fun a b => le a b = true) →
      ∃ A2 B2, insertSorted le x (A ++ d :: B) = A2 ++ d :: B2 ∧
        insertSorted le x (A ++ B) = A2 ++ B2 := by
  intro A
  induction A with
  | nil =>
    intro B hB
    simp only [List.nil_append, insertSorted]
    split
    · rename_i hxd
      refine ⟨[x], B, rfl, ?_⟩
      cases B with
      | nil => rfl
      | cons b bs =>
        have hdb : le d b = true := (List.pairwise_cons.mp hB).1 b (List.mem_cons_self b bs)
        simp only [insertSorted]
        rw [if_pos (htrans x d b hxd hdb)]
        rfl
    · exact ⟨[], insertSorted le x B, rfl, rfl⟩
  | cons a A0 ih =>
    intro B hB
    rw [List.cons_append, List.pairwise_cons] at hB
    by_cases hxa : le x a = true
    · refine ⟨x :: a :: A0, B, ?_, ?_⟩
      · simp only [List.cons_append, insertSorted, List.append_eq]
        rw [if_pos hxa]
      · simp only [List.cons_append, insertSorted, List.append_eq]
        rw [if_pos hxa]
    · obtain ⟨A2, B2, g1, g2⟩ := ih B hB.2
      refine ⟨a :: A2, B2, ?_, ?_⟩
      · simp only [List.cons_append, insertSorted, List.append_eq]
        rw [if_neg hxa, g1]
      · simp only [List.cons_append, insertSorted, List.append_eq]
        rw [if_neg hxa, g2]

theorem sortEntries_erase_middle (le : FSEntry → FSEntry → Bool)
    (htot : ∀ a b, le a b = false → le b a = true)
    (htrans : ∀ a b c, le a b = true → le b c = true → le a c = true) (d : FSEntry) :
    ∀ (l1 l2 : List FSEntry), ∃ A B,
      sortEntries le (l1 ++ d :: l2) = A ++ d :: B ∧ sortEntries le (l1 ++ l2) = A ++ B := by
  intro l1
  induction l1 with
  | nil =>
    intro l2
    simp only [List.nil_append, sortEntries]
    obtain ⟨A, B, h1, h2⟩ := insertSorted_split le d (sortEntries le l2)
    exact ⟨A, B, h1, h2⟩
  | cons x l1t ih =>
    intro l2
    simp only [List.cons_append, sortEntries, List.append_eq]
    obtain ⟨A, B, h1, h2⟩ := ih l2
    have hpw : (A ++ d :: B).Pairwise (fun a b => le a b = true) := by
      rw [← h1]
      exact pairwise_sortEntries le htot htrans _
    obtain ⟨A2, B2, g1, g2⟩ := insertSorted_middle le htrans x d A B hpw
    refine ⟨A2, B2, ?_, ?_⟩
    · rw [h1]; exact g1
    · rw [h2]; exact g2

theorem flatten_map_erase {α : Type} (g : FSEntry → List α) (le : FSEntry → FSEntry → Bool)
    (htot : ∀ a b, le a b = false → le b a = true)
    (htrans : ∀ a b c, le a b = true → le b c = true → le a c = true)
    (d : FSEntry) (hd : g d = []) (l1 l2 : List FSEntry) :
    ((sortEntries le (l1 ++ d :: l2)).map g).flatten =
      ((sortEntries le (l1 ++ l2)).map g).flatten := by
  obtain ⟨A, B, h1, h2⟩ := sortEntries_erase_middle le htot htrans d l1 l2
  rw [h1, h2]
  simp [hd]

/-- C6: a directory whose relative path matches the active pattern set is
pruned before recursion.  With an arbitrary subtree (any children, any local
.gitignore inside) the two generators and their file projections produce
exactly the output they produce when the directory is absent altogether, so
the directory and its subtree contribute zero entries to either output and its
local ignore file is never consulted. -/
theorem c6_pruning (f : Nat) (pre post : List FSEntry) (n : String) (cs : List FSEntry)
    (parentIg : List String) (relDir pref dirName : String) (pg hier keep : Bool)
    (m : Nat) (r : Rat)
    (hig : ignores (deriveIgnore parentIg (pre ++ FSEntry.dir n cs :: post) pg)
      (entryRelPath relDir (FSEntry.dir n cs)) = true) :
    generateStructure (f + 1) (pre ++ FSEntry.dir n cs :: post) parentIg relDir pref dirName pg
      = generateStructure (f + 1) (pre ++ post) parentIg relDir pref dirName pg ∧
    generateContentFile (f + 1) (pre ++ FSEntry.dir n cs :: post) parentIg relDir m pg hier r
        keep
      = generateContentFile (f + 1) (pre ++ post) parentIg relDir m pg hier r keep ∧
    structureFilePairs (f + 1) (pre ++ FSEntry.dir n cs :: post) parentIg relDir pg
      = structureFilePairs (f + 1) (pre ++ post) parentIg relDir pg ∧
    contentBlocks (f + 1) (pre ++ FSEntry.dir n cs :: post) parentIg relDir m pg hier r keep
      = contentBlocks (f + 1) (pre ++ post) parentIg relDir m pg hier r keep := by
  have hderive := deriveIgnore_append_dir parentIg pre post n cs pg
  have hig2 : ignores (deriveIgnore parentIg (pre ++ post) pg)
      (entryRelPath relDir (FSEntry.dir n cs)) = true := by
    rw [← hderive]
    exact hig
  have hvalid : validStructureEntries (pre ++ FSEntry.dir n cs :: post)
      (deriveIgnore parentIg (pre ++ post) pg) relDir =
      validStructureEntries (pre ++ post) (deriveIgnore parentIg (pre ++ post) pg) relDir := by
    unfold validStructureEntries
    congr 1
    rw [List.filter_append, List.filter_append, List.filter_cons]
    simp [hig2]
  refine ⟨?_, ?_, ?_, ?_⟩
  · simp only [generateStructure]
    rw [hderive, hvalid]
  · simp only [generateContentFile]
    rw [hderive]
    congr 1
    exact flatten_map_erase _ (entryLe hier) (entryLe_total hier) (entryLe_trans hier)
      (FSEntry.dir n cs) (by simp [hig2]) pre post
  · simp only [structureFilePairs]
    rw [hderive, hvalid]
  · simp only [contentBlocks]
    rw [hderive]
    exact flatten_map_erase _ (entryLe hier) (entryLe_total hier) (entryLe_trans hier)
      (FSEntry.dir n cs) (by simp [hig2]) pre post

theorem c6_witness :
    generateStructure 2
        [FSEntry.file "keep.txt" [65], FSEntry.dir "junk" [FSEntry.file ".gitignore" [42]]]
        ["junk/"] "" "" "r" true
      = generateStructure 2 [FSEntry.file "keep.txt" [65]] ["junk/"] "" "" "r" true ∧
    generateContentFile 2
        [FSEntry.file "keep.txt" [65], FSEntry.dir "junk" [FSEntry.file ".gitignore" [42]]]
        ["junk/"] "" 8192 true false 0 false
      = generateContentFile 2 [FSEntry.file "keep.txt" [65]] ["junk/"] "" 8192 true false 0
          false := by
  have h := c6_pruning 1 [FSEntry.file "keep.txt" [65]] [] "junk"
    [FSEntry.file ".gitignore" [42]] ["junk/"] "" "" "r" true false false 8192 0 (by decide)
  exact ⟨h.1, h.2.1⟩

theorem generateStructure_succ (f : Nat) (entries : List FSEntry) (parentIg : List String)
    (relDir pref dirName : String) (pg : Bool) :
    generateStructure (f + 1) entries parentIg relDir pref dirName pg =
      (if pref = "" then dirName ++ "/\n" else "") ++
      String.join ((withLastFlags (validStructureEntries entries
          (deriveIgnore parentIg entries pg) relDir)).map
        (structEmitEntry f (deriveIgnore parentIg entries pg) relDir pref pg)) := rfl

theorem generateContentFile_succ (f : Nat) (entries : List FSEntry) (parentIg : List String)
    (relDir : String) (m : Nat) (pg hier : Bool) (r : Rat) (keep : Bool) :
    generateContentFile (f + 1) entries parentIg relDir m pg hier r keep =
      unitsTrimStart (((sortEntries (entryLe hier) entries).map
        (contentEmitEntry f (deriveIgnore parentIg entries pg) relDir m pg hier r keep)).flatten) :=
  rfl

/-- C7: entering a directory derives a fresh pattern set layering the local
rules on an unmodified copy of the parent set (the parent list is embedded
unchanged as a prefix and is itself never rewritten), the derived set does not
depend on the contents of a sibling directory, and therefore the per-entry
emissions of both generators for every other sibling are identical when one
sibling's whole subtree — its local ignore file included — is replaced by
anything else: ignore rules never leak sideways. -/
theorem c7_sibling_isolation (f : Nat) (pre post : List FSEntry) (n1 : String)
    (cs1 cs1' : List FSEntry) (parentIg : List String) (relDir pref : String)
    (m : Nat) (pg hier keep : Bool) (r : Rat) (e : FSEntry) (flag : Bool)
    (_hmem : e ∈ pre ++ post) :
    (deriveIgnore parentIg (pre ++ FSEntry.dir n1 cs1 :: post) pg).take parentIg.length
      = parentIg ∧
    deriveIgnore parentIg (pre ++ FSEntry.dir n1 cs1 :: post) pg
      = deriveIgnore parentIg (pre ++ FSEntry.dir n1 cs1' :: post) pg ∧
    structEmitEntry f (deriveIgnore parentIg (pre ++ FSEntry.dir n1 cs1 :: post) pg) relDir
        pref pg (e, flag)
      = structEmitEntry f (deriveIgnore parentIg (pre ++ FSEntry.dir n1 cs1' :: post) pg)
        relDir pref pg (e, flag) ∧
    contentEmitEntry f (deriveIgnore parentIg (pre ++ FSEntry.dir n1 cs1 :: post) pg) relDir m
        pg hier r keep e
      = contentEmitEntry f (deriveIgnore parentIg (pre ++ FSEntry.dir n1 cs1' :: post) pg)
        relDir m pg hier r keep e := by
  have heq : deriveIgnore parentIg (pre ++ FSEntry.dir n1 cs1 :: post) pg
      = deriveIgnore parentIg (pre ++ FSEntry.dir n1 cs1' :: post) pg := by
    rw [deriveIgnore_append_dir, deriveIgnore_append_dir]
  refine ⟨?_, heq, by rw [heq], by rw [heq]⟩
  unfold deriveIgnore
  exact List.take_left parentIg _

theorem c7_witness :
    contentEmitEntry 1
        (deriveIgnore [] [FSEntry.file "x.txt" [65],
          FSEntry.dir "d1" [FSEntry.file ".gitignore" [120, 46, 116, 120, 116]]] true)
        "" 8192 true false 0 false (FSEntry.file "x.txt" [65])
      = contentEmitEntry 1
        (deriveIgnore [] [FSEntry.file "x.txt" [65], FSEntry.dir "d1" []] true)
        "" 8192 true false 0 false (FSEntry.file "x.txt" [65]) :=
  (c7_sibling_isolation 1 [FSEntry.file "x.txt" [65]] [] "d1"
    [FSEntry.file ".gitignore" [120, 46, 116, 120, 116]] [] [] "" "" 8192 true false false 0
    (FSEntry.file "x.txt" [65]) true (by simp)).2.2.2

theorem mem_flatten_map {α β : Type} (g : α → List β) (l : List α) (b : β) :
    b ∈ (l.map g).flatten ↔ ∃ a ∈ l, b ∈ g a := by
  simp

/-- C2: ignore consistency between the two independent recursive passes.  A
path appears as a file block in the content output exactly when it appears as
a file entry in the structure output and its content passes text
classification; and the structure pass never lists an entry matched by the
active pattern set. -/
theorem c2_ignore_consistency :
    ∀ (fuel : Nat) (entries : List FSEntry) (parentIg : List String) (relDir : String)
      (m : Nat) (pg hier keep : Bool) (r : Rat) (p : String) (b : List Nat),
      sizeOf entries < fuel →
      (((p, b) ∈ contentBlocks fuel entries parentIg relDir m pg hier r keep) ↔
        ∃ c, (p, c) ∈ structureFilePairs fuel entries parentIg relDir pg ∧
          isTextFile c m r = true ∧ b = contentFileBody keep c) ∧
      (∀ e ∈ entries,
        ignores (deriveIgnore parentIg entries pg) (entryRelPath relDir e) = true →
          e ∉ validStructureEntries entries (deriveIgnore parentIg entries pg) relDir) := by
  intro fuel
  induction fuel with
  | zero =>
    intro entries _ _ _ _ _ _ _ _ _ hf
    exact absurd hf (Nat.not_lt_zero _)
  | succ f ih =>
    intro entries parentIg relDir m pg hier keep r p b hf
    constructor
    · simp only [contentBlocks, structureFilePairs, mem_flatten_map, mem_sortEntries,
        validStructureEntries, List.mem_filter]
      constructor
      · rintro ⟨e, he, hpb⟩
        by_cases hg : ignores (deriveIgnore parentIg entries pg) (entryRelPath relDir e) = true
        · simp [hg] at hpb
        · have hgf : ignores (deriveIgnore parentIg entries pg) (entryRelPath relDir e)
              = false := Bool.eq_false_iff.mpr hg
          cases e with
          | file n c2 =>
            simp only [hgf, Bool.false_eq_true, if_false] at hpb
            by_cases ht : isTextFile c2 m r = true
            · rw [if_pos ht] at hpb
              rw [List.mem_singleton, Prod.mk.injEq] at hpb
              refine ⟨c2, ⟨FSEntry.file n c2, ⟨he, by simp [hgf]⟩, ?_⟩, ht, hpb.2⟩
              simp [hpb.1]
            · simp [ht] at hpb
          | dir n children =>
            simp only [hgf, Bool.false_eq_true, if_false] at hpb
            have hsz : sizeOf children < f := by
              have h1 := List.sizeOf_lt_of_mem he
              have h2 : sizeOf children < sizeOf (FSEntry.dir n children) := by
                simp [FSEntry.dir.sizeOf_spec]
              omega
            obtain ⟨c, hc, ht, hb⟩ :=
              (ih children (deriveIgnore parentIg entries pg) (childRelDir relDir n) m pg
                hier keep r p b hsz).1.mp hpb
            exact ⟨c, ⟨FSEntry.dir n children, ⟨he, by simp [hgf]⟩, hc⟩, ht, hb⟩
      · rintro ⟨c, ⟨e, ⟨he, hni⟩, hpc⟩, ht, hb⟩
        have hgf : ignores (deriveIgnore parentIg entries pg) (entryRelPath relDir e)
            = false := by
          rw [Bool.not_eq_true'] at hni
          exact hni
        refine ⟨e, he, ?_⟩
        cases e with
        | file n c2 =>
          rw [List.mem_singleton, Prod.mk.injEq] at hpc
          simp only [hgf, Bool.false_eq_true, if_false]
          have hc2 : c2 = c := hpc.2.symm ▸ rfl
          rw [hc2, if_pos ht, List.mem_singleton, Prod.mk.injEq]
          exact ⟨hpc.1, hb⟩
        | dir n children =>
          simp only [hgf, Bool.false_eq_true, if_false]
          have hsz : sizeOf children < f := by
            have h1 := List.sizeOf_lt_of_mem he
            have h2 : sizeOf children < sizeOf (FSEntry.dir n children) := by
              simp [FSEntry.dir.sizeOf_spec]
            omega
          exact (ih children (deriveIgnore parentIg entries pg) (childRelDir relDir n) m pg
            hier keep r p b hsz).1.mpr ⟨c, hpc, ht, hb⟩
    · intro e he hig hmem
      have h1 := mem_sortEntries.mp hmem
      rw [List.mem_filter, hig] at h1
      simp at h1

theorem c2_witness :
    (("a.txt", contentFileBody false [65])
        ∈ contentBlocks 1000 [FSEntry.file "a.txt" [65]] [] "" 8192 true false 0 false ↔
      ∃ c, ("a.txt", c) ∈ structureFilePairs 1000 [FSEntry.file "a.txt" [65]] [] "" true ∧
        isTextFile c 8192 0 = true ∧
        contentFileBody false [65] = contentFileBody false c) :=
  (c2_ignore_consistency 1000 [FSEntry.file "a.txt" [65]] [] "" 8192 true false false 0
    "a.txt" (contentFileBody false [65]) (by decide)).1

theorem globAux_self (l : List Char) : ∀ f : Nat, l.length < f →
    (∀ c ∈ l, ¬(c = '*') ∧ ¬(c = '?')) → globAux f l l = true := by
  induction l with
  | nil =>
    intro f hf _
    match f, hf with
    | g + 1, _ => rfl
  | cons c cs ih =>
    intro f hf hm
    match f, hf with
    | g + 1, hf =>
      have hc := hm c (List.mem_cons_self c cs)
      simp only [globAux]
      rw [if_neg hc.1, if_neg hc.2]
      have : globAux g cs cs = true := by
        apply ih g (by simpa using hf)
        intro x hx
        exact hm x (List.mem_cons_of_mem c hx)
      simp [this]

theorem globMatch_self (l : List Char) (hm : ∀ c ∈ l, ¬(c = '*') ∧ ¬(c = '?')) :
    globMatch l l = true := by
  apply globAux_self l _ _ hm
  have h1 : l.length + 1 ≤ (l.length + 1) * (l.length + 1) :=
    Nat.le_mul_of_pos_left _ (by omega)
  omega

theorem segsMatchFront_self : ∀ segs : List String,
    (∀ s ∈ segs, ∀ c ∈ s.data, ¬(c = '*') ∧ ¬(c = '?')) →
    segsMatchFront segs segs false false = true := by
  intro segs
  induction segs with
  | nil => intro _; rfl
  | cons s tail ih =>
    intro hm
    cases tail with
    | nil =>
      simp only [segsMatchFront]
      simp [globMatch_self s.data (hm s (List.mem_cons_self s []))]
    | cons s2 rest =>
      simp only [segsMatchFront]
      rw [globMatch_self s.data (hm s (List.mem_cons_self s _))]
      simp only [Bool.true_and]
      exact ih fun t ht => hm t (List.mem_cons_of_mem s ht)

theorem patternMatches_anchored_self (rel : String) (hp : relSegsPlain rel = true) :
    patternMatches ("/" ++ rel) rel = true := by
  unfold relSegsPlain at hp
  simp only [Bool.and_eq_true, Bool.not_eq_true', beq_eq_false_iff_ne, ne_eq,
    decide_eq_false_iff_not, List.all_eq_true] at hp
  obtain ⟨⟨⟨hne, hhead⟩, hlast⟩, hsegs⟩ := hp
  unfold patternMatches
  have hdata : ("/" ++ rel).data = '/' :: rel.data := by
    rw [String.data_append]
    rfl
  rw [hdata]
  simp only
  have hlast2 : ('/' :: rel.data).getLast? = rel.data.getLast? := by
    cases h : rel.data with
    | nil => exact absurd h hne
    | cons a as =>
      rw [List.getLast?_cons_cons]
  have hdirOnly : (('/' :: rel.data).getLast? == some '/') = false := by
    rw [hlast2]
    cases h : rel.data.getLast? with
    | none => rfl
    | some c =>
      simp only [beq_eq_false_iff_ne, ne_eq, Option.some.injEq]
      intro hc
      exact hlast (by rw [h, hc])
  have hpathdir : (rel.data.getLast? == some '/') = false := by
    cases h : rel.data.getLast? with
    | none => rfl
    | some c =>
      simp only [beq_eq_false_iff_ne, ne_eq, Option.some.injEq]
      intro hc
      exact hlast (by rw [h, hc])
  rw [hdirOnly, hpathdir]
  simp only [Bool.false_eq_true, if_false, List.head?_cons, beq_self_eq_true, Bool.true_or,
    if_true, List.tail_cons]
  apply segsMatchFront_self
  intro s hs c hc
  rw [List.mem_map] at hs
  obtain ⟨seg, hseg, hsmk⟩ := hs
  have := hsegs seg hseg
  rw [← hsmk] at hc
  exact this c hc

theorem ignores_of_mem (patterns : List String) (pat path : String)
    (hmem : pat ∈ patterns) (hmatch : patternMatches pat path = true) :
    ignores patterns path = true := by
  unfold ignores
  rw [List.any_eq_true]
  exact ⟨pat, hmem, hmatch⟩

/-- C9: every configuration with the file-size bound out of range, the
replacement ratio out of range, or verbose and silent both set makes
serializeRepo fail with one of the three configuration errors; the failure is
decided before any traversal or probe of the file system: the result does not
depend on the tree, on the existence of the output files, or on the recursion
fuel, and no output is produced. -/
theorem c9_config_validation (o : SerializeOptions) (tree : List FSEntry) (ex1 ex2 : Bool)
    (fuel : Nat)
    (hbad : o.maxFileSize < 512 ∨ 4 * 1024 * 1024 < o.maxFileSize ∨
      (o.verbose = true ∧ o.silent = true) ∨ o.maxReplacementRatio < 0 ∨
      1 < o.maxReplacementRatio) :
    (serializeRepo o tree ex1 ex2 fuel = .error .invalidMaxFileSize ∨
      serializeRepo o tree ex1 ex2 fuel = .error .verboseSilentConflict ∨
      serializeRepo o tree ex1 ex2 fuel = .error .invalidMaxReplacementRatio) ∧
    serializeRepo o tree ex1 ex2 fuel = serializeRepo o [] false false 0 := by
  by_cases h1 : o.maxFileSize < 512 ∨ 4 * 1024 * 1024 < o.maxFileSize
  · constructor
    · left
      simp only [serializeRepo]
      rw [if_pos h1]
    · simp only [serializeRepo]
      rw [if_pos h1, if_pos h1]
  · by_cases h2 : o.verbose = true ∧ o.silent = true
    · constructor
      · right; left
        simp only [serializeRepo]
        rw [if_neg h1, if_pos h2]
      · simp only [serializeRepo]
        rw [if_neg h1, if_pos h2, if_neg h1, if_pos h2]
    · have h3 : o.maxReplacementRatio < 0 ∨ 1 < o.maxReplacementRatio := by
        rcases hbad with h | h | h | h | h
        · exact absurd (Or.inl h) h1
        · exact absurd (Or.inr h) h1
        · exact absurd h h2
        · exact Or.inl h
        · exact Or.inr h
      constructor
      · right; right
        simp only [serializeRepo]
        rw [if_neg h1, if_neg h2, if_pos h3]
      · simp only [serializeRepo]
        rw [if_neg h1, if_neg h2, if_pos h3, if_neg h1, if_neg h2, if_pos h3]

theorem c9_witness :
    (serializeRepo c9Opts [FSEntry.file "x" [65]] true true 5 = .error .invalidMaxFileSize ∨
      serializeRepo c9Opts [FSEntry.file "x" [65]] true true 5
        = .error .verboseSilentConflict ∨
      serializeRepo c9Opts [FSEntry.file "x" [65]] true true 5
        = .error .invalidMaxReplacementRatio) :=
  (c9_config_validation c9Opts [FSEntry.file "x" [65]] true true 5 (Or.inl (by decide))).1

/-- C8 counterexample: with an existing output file, force off and an
interactive caller, a run whose configuration is invalid raises the
configuration error, not the distinguished PROMPT_REQUIRED signal the claim
promises for every such run. -/
theorem c8_counterexample :
    serializeRepo c8BadOpts [] true false 1 = .error .invalidMaxFileSize ∧
    SerializeError.invalidMaxFileSize ≠ SerializeError.promptRequired := by
  exact ⟨rfl, by decide⟩

/-- C8 as amended: provided the configuration passes validation, a run with an
existing output file and force off stops with the distinguished PROMPT_REQUIRED
signal when the call is interactive and with the generic outputs-exist error
otherwise; the error is raised before generation, so no output is produced. -/
theorem c8_output_collision (o : SerializeOptions) (tree : List FSEntry) (ex1 ex2 : Bool)
    (fuel : Nat)
    (hsize : 512 ≤ o.maxFileSize ∧ o.maxFileSize ≤ 4 * 1024 * 1024)
    (hvs : ¬(o.verbose = true ∧ o.silent = true))
    (hratio : 0 ≤ o.maxReplacementRatio ∧ o.maxReplacementRatio ≤ 1)
    (hex : ex1 = true ∨ ex2 = true) (hforce : o.force = false) :
    serializeRepo o tree ex1 ex2 fuel =
      .error (if o.isCliCall then .promptRequired else .outputFilesExist) := by
  simp only [serializeRepo]
  rw [if_neg (by omega)]
  rw [if_neg hvs]
  rw [if_neg (by rw [not_or]; exact ⟨not_lt.mpr hratio.1, not_lt.mpr hratio.2⟩)]
  rw [if_pos (show (ex1 || ex2) = true by rcases hex with h | h <;> simp [h])]
  rw [if_neg (show ¬(o.force = true) by simp [hforce])]
  by_cases hc : o.isCliCall = true <;> simp [hc]

theorem c8_witness :
    serializeRepo c8GoodOpts [FSEntry.file "x" [65]] true false 3 =
      .error SerializeError.promptRequired :=
  c8_output_collision c8GoodOpts [FSEntry.file "x" [65]] true false 3 (by decide)
    (by decide) (by decide) (Or.inl rfl) rfl

/-- C10 counterexample: an existing structure file at /repo2/s.txt does not
lie within the repoRoot /repo, yet the run appends an ignore pattern to the
caller's array anyway, because the code tests the resolved path with a string
startsWith check that also accepts sibling directories whose names extend the
root; the claim as stated says the array is left unchanged for output files
outside the root. -/
theorem c10_counterexample :
    pathWithin "/repo" (resolvePath (pathJoin "/repo2" "s.txt")) = false ∧
    serializeRepo c10Opts [] true false 1 =
      .ok { ignorePatterns := ["/../repo2/s.txt"], structureOut := "repo/\n",
            contentOut := [] } := by
  exact ⟨by decide, rfl⟩

/-- C10 as amended: with force set and a valid configuration, the run succeeds
and the caller's pattern array (returned as the result's ignorePatterns)
gains a root-anchored pattern for each output file that exists and whose
resolved path has the resolved repoRoot as a string prefix — the code's
startsWith test, which also covers sibling directories extending the root's
name — and gains nothing for absent or non-prefix output files.  Any appended
pattern of the form slash-plus-rel with a plain relative path makes the
resulting initial pattern set match rel, which is how the output files are
excluded from both generated outputs. -/
theorem c10_force_pattern_append (o : SerializeOptions) (tree : List FSEntry) (ex1 ex2 : Bool)
    (fuel : Nat)
    (hsize : 512 ≤ o.maxFileSize ∧ o.maxFileSize ≤ 4 * 1024 * 1024)
    (hvs : ¬(o.verbose = true ∧ o.silent = true))
    (hratio : 0 ≤ o.maxReplacementRatio ∧ o.maxReplacementRatio ≤ 1)
    (hforce : o.force = true) :
    ∃ res, serializeRepo o tree ex1 ex2 fuel = .ok res ∧
      res.ignorePatterns = o.additionalIgnorePatterns ++
        (if ex1 && strStartsWith (resolvePath (pathJoin o.outputDir o.structureFile))
            (resolvePath o.repoRoot) then
          ["/" ++ pathRelative o.repoRoot (pathJoin o.outputDir o.structureFile)] else []) ++
        (if ex2 && strStartsWith (resolvePath (pathJoin o.outputDir o.contentFile))
            (resolvePath o.repoRoot) then
          ["/" ++ pathRelative o.repoRoot (pathJoin o.outputDir o.contentFile)] else []) ∧
      (∀ rel : String, relSegsPlain rel = true → ("/" ++ rel) ∈ res.ignorePatterns →
        ignores (createInitialIgnore res.ignorePatterns o.ignoreDefaultPatterns) rel
          = true) := by
  have hexcl : ∀ res : SerializeResult,
      ∀ rel : String, relSegsPlain rel = true → ("/" ++ rel) ∈ res.ignorePatterns →
        ignores (createInitialIgnore res.ignorePatterns o.ignoreDefaultPatterns) rel
          = true := by
    intro res rel hp hmem
    refine ignores_of_mem _ ("/" ++ rel) rel ?_ (patternMatches_anchored_self rel hp)
    unfold createInitialIgnore
    exact List.mem_append.mpr (Or.inr hmem)
  simp only [serializeRepo]
  rw [if_neg (by omega)]
  rw [if_neg hvs]
  rw [if_neg (by rw [not_or]; exact ⟨not_lt.mpr hratio.1, not_lt.mpr hratio.2⟩)]
  by_cases hex : (ex1 || ex2) = true
  · rw [if_pos hex, if_pos hforce]
    refine ⟨_, rfl, ?_, hexcl _⟩
    by_cases h1 : (ex1 && strStartsWith (resolvePath (pathJoin o.outputDir o.structureFile))
        (resolvePath o.repoRoot)) = true <;>
      by_cases h2 : (ex2 && strStartsWith (resolvePath (pathJoin o.outputDir o.contentFile))
          (resolvePath o.repoRoot)) = true <;>
      simp [runSerialization, h1, h2, List.append_assoc]
  · rw [if_neg hex]
    have hb : ex1 = false ∧ ex2 = false := by
      rcases Bool.or_eq_false_iff.mp (Bool.eq_false_iff.mpr hex) with ⟨ha, hbb⟩
      exact ⟨ha, hbb⟩
    refine ⟨_, rfl, ?_, hexcl _⟩
    simp [runSerialization, hb.1, hb.2]

theorem c10_witness :
    ∃ res, serializeRepo c10WitOpts [] true false 2 = .ok res ∧
      res.ignorePatterns = [] ++ ["/repo_structure.txt"] ++ [] ∧
      (∀ rel : String, relSegsPlain rel = true → ("/" ++ rel) ∈ res.ignorePatterns →
        ignores (createInitialIgnore res.ignorePatterns false) rel = true) :=
  c10_force_pattern_append c10WitOpts [] true false 2 (by decide) (by decide) (by decide)
    rfl

/-- C1 evidence: the anchored pattern read from a/b/.gitignore is matched
against root-relative paths, so it can only ever match a top-level .env and
never anything inside a/b; consequently a/b/.env appears in both generated
outputs, although the claim, the spec and the repository's own test suite
(the test named handles leading slash in gitignore patterns) demand that it be
excluded.  The other two paths named by the claim are listed, as the claim
expects. -/
theorem c1_local_anchoring_bug :
    readGitignorePatterns [FSEntry.file ".gitignore" [47, 46, 101, 110, 118, 10],
        FSEntry.file ".env" [88], FSEntry.dir "c" [FSEntry.file ".env" [88]]]
      = ["/.env"] ∧
    ignores ["/.env"] ".env" = true ∧
    ignores ["/.env"] "a/b/.env" = false ∧
    ("a/b/.env", [88]) ∈ structureFilePairs 10 c1Tree (createInitialIgnore [] true) "" true ∧
    ("a/b/.env", contentFileBody false [88])
      ∈ contentBlocks 10 c1Tree (createInitialIgnore [] true) "" 8192 true false 0 false ∧
    (".env", [88]) ∈ structureFilePairs 10 c1Tree (createInitialIgnore [] true) "" true ∧
    ("a/b/c/.env", [88])
      ∈ structureFilePairs 10 c1Tree (createInitialIgnore [] true) "" true := by
  refine ⟨by decide, by decide, by decide, by decide, by decide, by decide, by decide⟩
